import Mathlib

/-!
Verification development for the docs-comparator pipeline
(`src/components/DiffProcessor.tsx` and the historical variants under
`src/unnamed/`).  The TypeScript functions are embedded shallowly:

* page geometry and rectangle arithmetic use `ℚ` (the source computes with
  JS numbers; every formula here is the exact algebraic counterpart);
* character offsets into the assembled text use `Nat`;
* the external `diff` library (jsdiff) is not part of the repository's
  sources, so its `diffWords` / `diffLines` entry points are modelled from
  the spec (§4.2: an LCS-style alignment over tokens).
-/

namespace DocsComparator

/-- `Math.max` over `ℚ`, written with an explicit `if` so that it
evaluates by `decide`/`rfl`. -/
def qmax (a b : ℚ) : ℚ := if a ≤ b then b else a

/-- `Math.min` over `ℚ`. -/
def qmin (a b : ℚ) : ℚ := if a ≤ b then a else b

/-- The four entries of a PDF.js text-item transform actually read by the
source: `transform[0]` (`a`), `transform[3]` (`d`), `transform[4]` (`e`),
`transform[5]` (`f`). -/
structure Transform where
  a : ℚ
  d : ℚ
  e : ℚ
  f : ℚ
deriving DecidableEq

/-- A PDF.js text item as consumed by `collectSecondTextLayout`:
`it.str`, `it.transform` (possibly absent), `it.width` (possibly not a
number) and `it.height` (possibly absent). -/
structure PdfTextItem where
  str : String
  transform : Option Transform
  width : Option ℚ
  height : Option ℚ
deriving DecidableEq

/-- One page of the input document, carrying both the pdf-lib page size
(`width`/`height` from `getSize()`) and the PDF.js viewport size at scale 1
(`viewportWidth`/`viewportHeight`), plus the text items of the page. -/
structure Page where
  width : ℚ
  height : ℚ
  viewportWidth : ℚ
  viewportHeight : ℚ
  items : List PdfTextItem
deriving DecidableEq

/-- A `Document` is the ordered list of its pages. -/
abbrev Document := List Page

/-- `TextItemBox` of the source.  The source field `end` is a Lean keyword
and is called `stop` here. -/
structure TextItemBox where
  start : Nat
  stop : Nat
  pageIndex : Nat
  x : ℚ
  y : ℚ
  width : ℚ
  height : ℚ
deriving DecidableEq

/-- `extractTextLocalFallback` (`src/components/DiffProcessor.tsx:110`):
for each page, joins the item strings with single spaces
(`items.map(item => item.str).join(" ")`) and appends `"\n\n"`. -/
def extractTextLocalFallback (doc : Document) : String :=
  doc.foldl
    (fun fullText page =>
      fullText ++ String.intercalate " " (page.items.map PdfTextItem.str) ++ "\n\n")
    ""

/-- Inner loop of `collectSecondTextLayout` over one page's text items
(`src/components/DiffProcessor.tsx:332-365`).  `asm` is the assembled
string so far; returns the boxes of this page together with the grown
assembled string. -/
def collectItems (pageIndex : Nat) (rx ry pageH : ℚ) :
    List PdfTextItem → String → List TextItemBox × String
  | [], asm => ([], asm)
  | it :: rest, asm =>
    let start := asm.length
    let asm2 := asm ++ it.str ++ " "
    let stop := asm2.length
    let tx : ℚ := match it.transform with | some t => t.e | none => 0
    let ty : ℚ := match it.transform with | some t => t.f | none => 0
    -- `transform ? Math.abs(transform[3] || 0) : it.height || 10`
    -- (JS `||` treats 0 as falsy, hence the `h = 0` case below)
    let hCanvas : ℚ :=
      match it.transform with
      | some t => |t.d|
      | none => match it.height with
                | some h => if h = 0 then 10 else h
                | none => 10
    -- `typeof it.width === "number" ? it.width : Math.abs(transform ? transform[0] || 0 : 0)`
    let wCanvas : ℚ :=
      match it.width with
      | some w => w
      | none => match it.transform with | some t => |t.a| | none => 0
    let xPt := tx * rx
    let yTopPt := ty * ry
    let hPt := hCanvas * ry
    let wPt := qmax 1 (wCanvas * rx)
    let yBottomPt := qmax 0 (pageH - (yTopPt + hPt))
    let box : TextItemBox :=
      { start := start, stop := stop, pageIndex := pageIndex,
        x := xPt, y := yBottomPt, width := wPt, height := hPt }
    let step := collectItems pageIndex rx ry pageH rest asm2
    (box :: step.1, step.2)

/-- Page loop of `collectSecondTextLayout`
(`src/components/DiffProcessor.tsx:317-369`): pushes the pdf-lib page size,
walks the page's items when there are any, and appends the `"\n\n"` page
separator in every case.  Returns `(items, assembled, widths, heights)`. -/
def collectPages : Nat → List Page → String →
    List TextItemBox × String × List ℚ × List ℚ
  | _, [], asm => ([], asm, [], [])
  | pageIndex, p :: rest, asm =>
    let rx := p.width / p.viewportWidth
    let ry := p.height / p.viewportHeight
    let step :=
      if p.items.isEmpty then ([], asm)
      else collectItems pageIndex rx ry p.height p.items asm
    let asm3 := step.2 ++ "\n\n"
    let tail := collectPages (pageIndex + 1) rest asm3
    (step.1 ++ tail.1, tail.2.1, p.width :: tail.2.2.1, p.height :: tail.2.2.2)

/-- Result record of `collectSecondTextLayout`. -/
structure Layout where
  items : List TextItemBox
  text : String
  pageHeights : List ℚ
  pageWidths : List ℚ
deriving DecidableEq

/-- `collectSecondTextLayout` (`src/components/DiffProcessor.tsx:297-372`). -/
def collectSecondTextLayout (doc : Document) : Layout :=
  let r := collectPages 0 doc ""
  { items := r.1, text := r.2.1, pageHeights := r.2.2.2, pageWidths := r.2.2.1 }

/-- Concrete document for claim C1: one page whose single text item has
string `"a"`. -/
def exDocC1 : Document :=
  [{ width := 1, height := 1, viewportWidth := 1, viewportHeight := 1,
     items := [{ str := "a", transform := none, width := none, height := none }] }]

/-- One element of the array returned by `diff.diffWords` /
`diff.diffLines`, as typed in the source:
`{added?: boolean; removed?: boolean; value: string}` (absent flags read as
`false`). -/
structure Part where
  added : Bool
  removed : Bool
  value : String
deriving DecidableEq

/-- Segment kinds emitted by `computeAddedAndModifiedSegments`. -/
inductive SegKind where
  | added
  | modified
deriving DecidableEq

/-- `Segment` of the source (`{start, end, kind}`); the source field `end`
is a Lean keyword and is called `stop` here. -/
structure Segment where
  start : Nat
  stop : Nat
  kind : SegKind
deriving DecidableEq

/-- The indexed loop of `computeAddedAndModifiedSegments`
(`src/components/DiffProcessor.tsx:256-285`), walking `parts` from index
`i` with running document-2 offset `pos2`.  `parts[i-1]` at `i = 0` is
`undefined` in JS, so the previous-part lookup is guarded by `i = 0`. -/
def segLoop (parts : List Part) (i pos2 : Nat) : List Segment :=
  if h : i < parts.length then
    let p := parts[i]
    if p.added then
      let start := pos2
      let stop := pos2 + p.value.length
      let prevRemoved : Bool :=
        if i = 0 then false else ((parts[i - 1]?).map Part.removed).getD false
      let nextRemoved : Bool :=
        ((parts[i + 1]?).map Part.removed).getD false
      { start := start, stop := stop,
        kind := if prevRemoved || nextRemoved then SegKind.modified else SegKind.added }
        :: segLoop parts (i + 1) stop
    else if p.removed then
      segLoop parts (i + 1) pos2
    else
      segLoop parts (i + 1) (pos2 + p.value.length)
  else []
  termination_by parts.length - i

/-- The segment walk applied to a whole parts list (the body of
`computeAddedAndModifiedSegments` after the `diff.diffWords` call). -/
def segmentsOfParts (parts : List Part) : List Segment :=
  segLoop parts 0 0

/-- Transcription of claim C2's wording: walk the parts once carrying the
previous part and the counter `pos2`; an added part emits one segment
`{start := pos2, stop := pos2 + length}` whose kind is `modified` exactly
when the immediately preceding or following part is removed; removed parts
emit nothing and keep `pos2`; other parts advance `pos2` by their length. -/
def segmentsSpecGo : Option Part → Nat → List Part → List Segment
  | _, _, [] => []
  | prev, pos2, p :: rest =>
    if p.added then
      let adjacentRemoved : Bool :=
        (match prev with | some q => q.removed | none => false)
          || (match rest.head? with | some q => q.removed | none => false)
      { start := pos2, stop := pos2 + p.value.length,
        kind := if adjacentRemoved then SegKind.modified else SegKind.added }
        :: segmentsSpecGo (some p) (pos2 + p.value.length) rest
    else if p.removed then
      segmentsSpecGo (some p) pos2 rest
    else
      segmentsSpecGo (some p) (pos2 + p.value.length) rest

/-- The claim-level description of the segment construction. -/
def segmentsSpec (parts : List Part) : List Segment :=
  segmentsSpecGo none 0 parts

/-- Token classification inside the modelled diff. -/
inductive TokKind where
  | common
  | removed
  | added
deriving DecidableEq

/-- Split a list at the first occurrence of `a`: returns the elements
before it and the elements after it (the whole list and `[]` when `a` does
not occur). -/
def splitAtFirst [DecidableEq α] (a : α) : List α → List α × List α
  | [] => ([], [])
  | x :: xs =>
    if x = a then ([], xs)
    else
      let r := splitAtFirst a xs
      (x :: r.1, r.2)

/-- Fuel-indexed longest-common-subsequence recursion (structural on the
fuel so that it evaluates inside the kernel); the fuel is consumed once
per step while the summed length of the two lists shrinks, so
`xs.length + ys.length` fuel always suffices. -/
def lcsFuel [DecidableEq α] : Nat → List α → List α → List α
  | 0, _, _ => []
  | _ + 1, [], _ => []
  | _ + 1, _ :: _, [] => []
  | fuel + 1, a :: as, b :: bs =>
    if a = b then a :: lcsFuel fuel as bs
    else
      let l1 := lcsFuel fuel (a :: as) bs
      let l2 := lcsFuel fuel as (b :: bs)
      if l2.length ≤ l1.length then l1 else l2

/-- Modelled from the spec: the external diff library's alignment is "a
classic longest-common-subsequence-style alignment (Myers algorithm or
equivalent)" (§4.2); this is the textbook LCS recursion it is equivalent
to. -/
def lcs [DecidableEq α] (xs ys : List α) : List α :=
  lcsFuel (xs.length + ys.length) xs ys

/-- Modelled from the spec: given a common subsequence, classify every
token of the two sides; tokens before the next common token are emitted as
removed (side 1) then added (side 2), matching the library's
removed-before-added emission order. -/
def markTokens [DecidableEq α] : List α → List α → List α → List (TokKind × α)
  | [], xs, ys =>
    xs.map (fun x => (TokKind.removed, x)) ++ ys.map (fun y => (TokKind.added, y))
  | c :: l, xs, ys =>
    let px := splitAtFirst c xs
    let py := splitAtFirst c ys
    px.1.map (fun x => (TokKind.removed, x))
      ++ py.1.map (fun y => (TokKind.added, y))
      ++ (TokKind.common, c) :: markTokens l px.2 py.2

/-- Modelled from the spec: the library merges adjacent tokens of the same
classification into a single change part with the concatenated text. -/
def mergeRuns : List (TokKind × String) → List (TokKind × String)
  | [] => []
  | (k, v) :: rest =>
    match mergeRuns rest with
    | [] => [(k, v)]
    | (k2, v2) :: out =>
      if k = k2 then (k, v ++ v2) :: out else (k, v) :: (k2, v2) :: out

/-- Modelled from the spec: turn classified token runs into the
`{added, removed, value}` parts the source consumes. -/
def partsOfMarks (ms : List (TokKind × String)) : List Part :=
  (mergeRuns ms).map fun kv =>
    match kv.1 with
    | TokKind.common => { added := false, removed := false, value := kv.2 }
    | TokKind.removed => { added := false, removed := true, value := kv.2 }
    | TokKind.added => { added := true, removed := false, value := kv.2 }

/-- Modelled from the spec: a full token-level diff — LCS alignment, token
classification, then run merging. -/
def diffTokens (xs ys : List String) : List Part :=
  partsOfMarks (markTokens (lcs xs ys) xs ys)

/-- Group consecutive characters into maximal runs of whitespace /
non-whitespace characters. -/
def wordRuns : List Char → List (List Char)
  | [] => []
  | c :: cs =>
    match wordRuns cs with
    | [] => [[c]]
    | [] :: rs => [c] :: [] :: rs
    | (d :: r) :: rs =>
      if c.isWhitespace = d.isWhitespace then (c :: d :: r) :: rs
      else [c] :: (d :: r) :: rs

/-- Modelled from the spec: word-granularity tokenization — words and the
whitespace between them become alternating tokens whose concatenation is
the input (§4.2 applies the alignment "at word granularity over the two
full strings"). -/
def tokenizeWords (s : String) : List String :=
  (wordRuns s.toList).map List.asString

/-- Accumulating loop of `splitOnChar`. -/
def splitOnCharGo (sep : Char) : List Char → List Char → List (List Char)
  | [], acc => [acc.reverse]
  | c :: cs, acc =>
    if c = sep then acc.reverse :: splitOnCharGo sep cs []
    else splitOnCharGo sep cs (c :: acc)

/-- JS `s.split(sep)` for a one-character separator: the fragments between
occurrences of `sep`, with empty fragments kept (`"a\n".split("\n")` is
`["a", ""]`). -/
def splitOnChar (sep : Char) (s : String) : List String :=
  (splitOnCharGo sep s.toList []).map List.asString

/-- Keep the `"\n"` terminator attached to every line token; a trailing
empty fragment after the last `"\n"` yields no token. -/
def lineTokensGo : List String → List String
  | [] => []
  | [last] => if last = "" then [] else [last]
  | p :: rest => (p ++ "\n") :: lineTokensGo rest

/-- Modelled from the spec: line-granularity tokenization for the line
diff of §4.2 ("over the strings split on line breaks"; "trailing empty
lines produced by a trailing line separator must not be emitted"). -/
def tokenizeLines (s : String) : List String :=
  lineTokensGo (splitOnChar '\n' s)

/-- Modelled from the spec: `diff.diffWords` of the external library —
word-granularity diff of the two full strings (§4.2). -/
def diffWords (t1 t2 : String) : List Part :=
  diffTokens (tokenizeWords t1) (tokenizeWords t2)

/-- Modelled from the spec: `diff.diffLines` of the external library —
line-granularity diff (§4.2). -/
def diffLines (t1 t2 : String) : List Part :=
  diffTokens (tokenizeLines t1) (tokenizeLines t2)

/-- `computeAddedAndModifiedSegments`
(`src/components/DiffProcessor.tsx:256-285`): word diff of the two texts,
then the segment walk. -/
def computeAddedAndModifiedSegments (t1 t2 : String) : List Segment :=
  segmentsOfParts (diffWords t1 t2)

/-- A rectangle passed to `page.drawRectangle` in
`createAnnotatedSecondPdf`; the constant opacity 0.25 and the border
(same color and opacity) are omitted.  `colorR/G/B` carry the
`rgb(1, 1, 0)` (modified) / `rgb(0.9, 0, 0)` (added) fill. -/
structure Rect where
  x : ℚ
  y : ℚ
  width : ℚ
  height : ℚ
  colorR : ℚ
  colorG : ℚ
  colorB : ℚ
deriving DecidableEq

/-- The body of the inner loop of `createAnnotatedSecondPdf`
(`src/components/DiffProcessor.tsx:222-247`) for one segment and one
layout item: `none` models the `continue` when the offset intervals do not
overlap, `some` the drawn rectangle.  `pageHeights` stands for
`outDoc.getPage(it.pageIndex).getSize().height` (the output pages keep the
input pages' sizes). -/
def rectForPair (pageHeights : List ℚ) (seg : Segment) (it : TextItemBox) :
    Option Rect :=
  let overlapStart := max seg.start it.start
  let overlapEnd := min seg.stop it.stop
  if overlapEnd ≤ overlapStart then none
  else
    let denom := qmax 1 ((it.stop : ℚ) - (it.start : ℚ))
    let fracStart := ((overlapStart : ℚ) - (it.start : ℚ)) / denom
    let fracWidth := ((overlapEnd : ℚ) - (overlapStart : ℚ)) / denom
    let rectX := it.x + it.width * fracStart
    let rectW := it.width * fracWidth
    let pageH := pageHeights.getD it.pageIndex 0
    let rectYBottom := qmax 0 (pageH - (it.y + it.height))
    let rectH := qmax 2 (it.height * (11 / 10))
    some { x := rectX, y := rectYBottom, width := rectW, height := rectH,
           colorR := if seg.kind = SegKind.modified then 1 else 9 / 10,
           colorG := if seg.kind = SegKind.modified then 1 else 0,
           colorB := 0 }

/-- One page of the output document produced by `createAnnotatedSecondPdf`:
the verbatim copy of the input page plus the overlay rectangles drawn on
it. -/
structure OutPage where
  base : Page
  rects : List Rect
deriving DecidableEq

/-- Replace the element at index `i` (no-op when out of range). -/
def modifyAt : List α → Nat → (α → α) → List α
  | [], _, _ => []
  | x :: xs, 0, f => f x :: xs
  | x :: xs, n + 1, f => x :: modifyAt xs n f

/-- One iteration of the inner item loop of `createAnnotatedSecondPdf`:
skip when the intervals do not overlap, otherwise draw the rectangle on
the item's page. -/
def drawItem (pageHeights : List ℚ) (seg : Segment) (pages : List OutPage)
    (it : TextItemBox) : List OutPage :=
  match rectForPair pageHeights seg it with
  | none => pages
  | some r => modifyAt pages it.pageIndex (fun op => { op with rects := op.rects ++ [r] })

/-- The item loop of `createAnnotatedSecondPdf` for one segment. -/
def drawSeg (pageHeights : List ℚ) (items : List TextItemBox)
    (pages : List OutPage) (seg : Segment) : List OutPage :=
  items.foldl (drawItem pageHeights seg) pages

/-- `createAnnotatedSecondPdf` (`src/components/DiffProcessor.tsx:201-252`):
copy every input page into a fresh output document, then for each segment
and each overlapping layout item draw one highlight rectangle on the
item's page. -/
def createAnnotatedSecondPdf (t1 t2 : String) (doc : Document) : List OutPage :=
  let segments := computeAddedAndModifiedSegments t1 t2
  let layout := collectSecondTextLayout doc
  let basePages : List OutPage := doc.map (fun p => { base := p, rects := [] })
  segments.foldl (drawSeg (doc.map Page.height) layout.items) basePages

/-- UTF-16 encoding of one Unicode scalar value: JS strings are sequences
of UTF-16 code units, and the source's regex `/[\u0080-￿]/g` matches
per code unit.  A scalar value above `0xFFFF` encodes as a surrogate
pair. -/
def utf16Encode (c : Char) : List Nat :=
  if c.val.toNat < 0x10000 then [c.val.toNat]
  else
    let v := c.val.toNat - 0x10000
    [0xD800 + v / 0x400, 0xDC00 + v % 0x400]

/-- Per-code-unit action of `sanitizeTextForWinAnsi`
(`src/unnamed/part_002:377-381`): units below `0x80` are untouched; the
unit of `'➢'` (`0x27A2`) becomes `'-'` (`0x2D`); every other matched unit
becomes `'?'` (`0x3F`). -/
def winAnsiUnitMap (u : Nat) : Nat :=
  if u < 0x80 then u
  else if u = 0x27A2 then 0x2D
  else 0x3F

/-- `sanitizeTextForWinAnsi` (`src/unnamed/part_002:377-381`):
`s.replace(/[\u0080-￿]/g, ch => ch === "➢" ? "-" : "?")`, embedded at
the UTF-16 code-unit level at which the JS regex operates.  All mapped
units are valid scalar values, so decoding is unit-per-character. -/
def sanitizeTextForWinAnsi (s : String) : String :=
  String.mk (((s.toList.flatMap utf16Encode).map winAnsiUnitMap).map Char.ofNat)

/-- The per-code-point substitution rule of claim C9, adjusted to what the
code does: points below `U+0080` pass through, `'➢'` becomes `'-'`, other
points up to `U+FFFF` become one `'?'`, and a point above `U+FFFF` (two
UTF-16 units) becomes two `'?'`. -/
def sanitizePointRule (c : Char) : List Char :=
  if c.val.toNat < 0x80 then [c]
  else if c.val.toNat = 0x27A2 then ['-']
  else if c.val.toNat < 0x10000 then ['?']
  else ['?', '?']

/-- The `type` values of `DiffLine` (`src/unnamed/part_002:46-52`). -/
inductive LineType where
  | unchanged
  | modified
  | added
  | removed
deriving DecidableEq

/-- `DiffLine` of the source (`src/unnamed/part_002:46-52`);
`lineNumber = -1` marks a line absent on that side. -/
structure DiffLine where
  lineNumber1 : Int
  lineNumber2 : Int
  text1 : String
  text2 : String
  type : LineType
deriving DecidableEq

/-- The lines of one diff part actually emitted by `createLineDiff`'s
inner loops: every fragment of `value.split("\n")` except a trailing empty
one (`if (i === lines.length - 1 && !lines[i]) continue`). -/
def effLines (lines : List String) : List String :=
  if lines.getLast? = some "" then lines.dropLast else lines

/-- Rows for an unchanged part (`src/unnamed/part_002:187-199`). -/
def unchangedRows : Nat → Nat → List String → List DiffLine
  | _, _, [] => []
  | i1, i2, l :: ls =>
    { lineNumber1 := (i1 : Int) + 1, lineNumber2 := (i2 : Int) + 1,
      text1 := l, text2 := l, type := LineType.unchanged }
      :: unchangedRows (i1 + 1) (i2 + 1) ls

/-- Rows for a removed part (`src/unnamed/part_002:200-211`). -/
def removedRows : Nat → List String → List DiffLine
  | _, [] => []
  | i1, l :: ls =>
    { lineNumber1 := (i1 : Int) + 1, lineNumber2 := -1,
      text1 := l, text2 := "", type := LineType.removed }
      :: removedRows (i1 + 1) ls

/-- Rows for an added part (`src/unnamed/part_002:212-224`). -/
def addedRows : Nat → List String → List DiffLine
  | _, [] => []
  | i2, l :: ls =>
    { lineNumber1 := -1, lineNumber2 := (i2 : Int) + 1,
      text1 := "", text2 := l, type := LineType.added }
      :: addedRows (i2 + 1) ls

/-- The part loop of `createLineDiff` (`src/unnamed/part_002:184-225`),
carrying the running 0-based line counters `index1`, `index2`. -/
def lineRowsLoop : List Part → Nat → Nat → List DiffLine
  | [], _, _ => []
  | p :: rest, i1, i2 =>
    let ls := effLines (splitOnChar '\n' p.value)
    if !p.added && !p.removed then
      unchangedRows i1 i2 ls ++ lineRowsLoop rest (i1 + ls.length) (i2 + ls.length)
    else if p.removed then
      removedRows i1 ls ++ lineRowsLoop rest (i1 + ls.length) i2
    else if p.added then
      addedRows i2 ls ++ lineRowsLoop rest i1 (i2 + ls.length)
    else
      lineRowsLoop rest i1 i2

/-- `createLineDiff` (`src/unnamed/part_002:178-228`). -/
def createLineDiff (t1 t2 : String) : List DiffLine :=
  lineRowsLoop (diffLines t1 t2) 0 0

/-- Concrete document for claim C3: one 100×100 page (viewport also
100×100, so `rx = ry = 1`) with a single item `"ab"` whose transform puts
it at `e = 0`, `f = 30` with `d = 10` and explicit width 5. -/
def exDocC3 : Document :=
  [{ width := 100, height := 100, viewportWidth := 100, viewportHeight := 100,
     items := [{ str := "ab",
                 transform := some { a := 5, d := 10, e := 0, f := 30 },
                 width := some 5, height := none }] }]

/-- The `TextItemBox` the Extractor produces for `exDocC3`:
`yBottom = max 0 (100 - (30 + 10)) = 60`. -/
def boxC3 : TextItemBox :=
  { start := 0, stop := 3, pageIndex := 0, x := 0, y := 60, width := 5, height := 10 }

/-- A segment overlapping `boxC3`. -/
def segC3 : Segment := { start := 0, stop := 1, kind := SegKind.added }

/-- The rectangle the renderer draws for `(segC3, boxC3)`: its `y` is
`max 0 (100 - (60 + 10)) = 30`, not the run's stored `y = 60`. -/
def rectC3 : Rect :=
  { x := 0, y := 30, width := 5 / 3, height := 11,
    colorR := 9 / 10, colorG := 0, colorB := 0 }

/-- Run and segment for claim C3's witness: the run's stored `y = 60` is
the once-flipped value of `yTop = 30` with height 10 on a height-100
page. -/
def boxC3w : TextItemBox :=
  { start := 0, stop := 2, pageIndex := 0, x := 0, y := 60, width := 5, height := 10 }

/-- Segment for claim C3's witness. -/
def segC3w : Segment := { start := 0, stop := 1, kind := SegKind.added }

/-- Run for claim C4's witness: offsets `[100, 106)`, the spec's Scenario
C shape. -/
def boxC4 : TextItemBox :=
  { start := 100, stop := 106, pageIndex := 0, x := 10, y := 20, width := 60, height := 10 }

/-- Overlapping segment for claim C4's witness (`[102, 106)`). -/
def segC4 : Segment := { start := 102, stop := 106, kind := SegKind.modified }

/-- Non-overlapping segment for claim C4's witness. -/
def segC4n : Segment := { start := 0, stop := 100, kind := SegKind.added }

/-- The rectangle drawn for `(segC3w, boxC3w)` on a height-100 page. -/
def rectC3w : Rect :=
  { x := 0, y := 30, width := 5 / 2, height := 11,
    colorR := 9 / 10, colorG := 0, colorB := 0 }

/-- The first row of `createLineDiff "a\n" "b\n"` (claim C6's witness). -/
def rowC6 : DiffLine :=
  { lineNumber1 := 1, lineNumber2 := -1, text1 := "a", text2 := "",
    type := LineType.removed }

/-- Well-formedness of a run of `TextItemBox`es within the offset window
`[lo, hi]`: every box starts at or after the previous box's `stop`
(beginning at `lo`), has positive extent, and ends before `hi`. -/
def OffsetsOk : Nat → List TextItemBox → Nat → Prop
  | lo, [], hi => lo ≤ hi
  | lo, b :: bs, hi => lo ≤ b.start ∧ b.start < b.stop ∧ OffsetsOk b.stop bs hi

end DocsComparator

namespace DocsComparator

/-! ### Helper lemmas -/

theorem length_space : (" " : String).length = 1 := rfl

theorem qmax_eq_right {a b : ℚ} (h : a ≤ b) : qmax a b = b := by rw [qmax, if_pos h]

theorem optRemoved_eq (o : Option Part) :
    ((o.map Part.removed).getD false) =
      (match o with | some q => q.removed | none => false) := by
  cases o <;> rfl

/-- The indexed source walk agrees, from any index, with the claim-level
walk that carries the previous part explicitly. -/
theorem segLoop_eq (parts : List Part) (i pos2 : Nat) :
    segLoop parts i pos2 =
      segmentsSpecGo (if i = 0 then none else parts[i - 1]?) pos2 (parts.drop i) := by
  rw [segLoop]
  by_cases h : i < parts.length
  · rw [dif_pos h]
    have hdrop : parts.drop i = parts[i] :: parts.drop (i + 1) := List.drop_eq_getElem_cons h
    rw [hdrop]
    have hnext : (parts.drop (i + 1)).head? = parts[i + 1]? := List.head?_drop parts (i + 1)
    have hrec : ∀ q, segLoop parts (i + 1) q =
        segmentsSpecGo (some parts[i]) q (parts.drop (i + 1)) := by
      intro q
      rw [segLoop_eq parts (i + 1) q]
      simp [List.getElem?_eq_getElem h]
    by_cases ha : parts[i].added
    · simp only [segmentsSpecGo, ha, if_true]
      rw [hrec]
      congr 1
      congr 1
      rw [hnext, ← optRemoved_eq, ← optRemoved_eq]
      by_cases hi : i = 0
      · simp [hi]
      · simp [hi]
    · by_cases hr : parts[i].removed
      · simp [segmentsSpecGo, ha, hr, hrec]
      · simp [segmentsSpecGo, ha, hr, hrec]
  · rw [dif_neg h]
    rw [List.drop_eq_nil_of_le (Nat.le_of_not_lt h)]
    rfl
  termination_by parts.length - i

/-! ### Identity lemmas for the modelled diff -/

theorem lcsFuel_self [DecidableEq α] :
    ∀ (fuel : Nat) (xs : List α), xs.length ≤ fuel → lcsFuel fuel xs xs = xs := by
  intro fuel
  induction fuel with
  | zero =>
    intro xs h
    rw [List.length_eq_zero.mp (Nat.le_zero.mp h)]
    rfl
  | succ f ih =>
    intro xs h
    cases xs with
    | nil => rfl
    | cons a as =>
      rw [lcsFuel]
      simp [ih as (by simpa using Nat.le_of_succ_le_succ h)]

theorem lcs_self [DecidableEq α] (xs : List α) : lcs xs xs = xs :=
  lcsFuel_self (xs.length + xs.length) xs (Nat.le_add_right _ _)

theorem markTokens_self [DecidableEq α] (xs : List α) :
    markTokens xs xs xs = xs.map (fun t => (TokKind.common, t)) := by
  induction xs with
  | nil => rw [markTokens]; rfl
  | cons c l ih => rw [markTokens]; simp [splitAtFirst, ih]

theorem mergeRuns_commons (xs : List String) :
    ∀ m ∈ mergeRuns (xs.map fun t => (TokKind.common, t)), m.1 = TokKind.common := by
  induction xs with
  | nil => simp [mergeRuns]
  | cons c l ih =>
    simp only [List.map_cons]
    rw [mergeRuns]
    cases hmr : mergeRuns (l.map fun t => (TokKind.common, t)) with
    | nil => simp
    | cons p out =>
      intro m hm
      have hp : p.1 = TokKind.common := ih p (by rw [hmr]; simp)
      obtain ⟨k2, v2⟩ := p
      simp only at hp
      subst hp
      have hm2 : m = (TokKind.common, c ++ v2) ∨ m ∈ out := by simpa using hm
      rcases hm2 with hm2 | hm2
      · subst hm2; rfl
      · exact ih m (by rw [hmr]; simp [hm2])

theorem diffWords_self_not_added (t : String) :
    ∀ p ∈ diffWords t t, p.added = false := by
  unfold diffWords diffTokens
  rw [lcs_self, markTokens_self]
  intro p hp
  unfold partsOfMarks at hp
  obtain ⟨kv, hkv, rfl⟩ := List.mem_map.mp hp
  have hk := mergeRuns_commons _ kv hkv
  obtain ⟨k, v⟩ := kv
  simp only at hk
  subst hk
  rfl

theorem segmentsSpecGo_nil_of_no_added :
    ∀ (parts : List Part) (prev : Option Part) (pos2 : Nat),
      (∀ p ∈ parts, p.added = false) → segmentsSpecGo prev pos2 parts = [] := by
  intro parts
  induction parts with
  | nil => intros; rfl
  | cons p rest ih =>
    intro prev pos2 h
    have hp : p.added = false := h p (by simp)
    rw [segmentsSpecGo.eq_def]
    by_cases hr : p.removed <;>
      simp [hp, hr, ih _ _ (fun q hq => h q (by simp [hq]))]

end DocsComparator

namespace DocsComparator

/-! ### Renderer lemmas -/

theorem map_base_modifyAt (f : OutPage → OutPage) (hf : ∀ op, (f op).base = op.base) :
    ∀ (l : List OutPage) (i : Nat), (modifyAt l i f).map OutPage.base = l.map OutPage.base
  | [], _ => rfl
  | x :: xs, 0 => by simp [modifyAt, hf]
  | x :: xs, n + 1 => by simp [modifyAt, map_base_modifyAt f hf xs n]

theorem map_base_drawItem (hs : List ℚ) (seg : Segment) (pages : List OutPage)
    (it : TextItemBox) :
    (drawItem hs seg pages it).map OutPage.base = pages.map OutPage.base := by
  unfold drawItem
  cases h : rectForPair hs seg it with
  | none => rfl
  | some r =>
    simpa using map_base_modifyAt
      (fun op => { op with rects := op.rects ++ [r] }) (fun op => rfl) pages it.pageIndex

theorem map_base_drawSeg (hs : List ℚ) (items : List TextItemBox) :
    ∀ (pages : List OutPage) (seg : Segment),
      (drawSeg hs items pages seg).map OutPage.base = pages.map OutPage.base := by
  induction items with
  | nil => intro pages seg; rfl
  | cons it rest ih =>
    intro pages seg
    show ((it :: rest).foldl (drawItem hs seg) pages).map OutPage.base = _
    rw [List.foldl_cons]
    rw [show rest.foldl (drawItem hs seg) (drawItem hs seg pages it) =
          drawSeg hs rest (drawItem hs seg pages it) seg from rfl]
    rw [ih, map_base_drawItem]

theorem map_base_foldSegs (hs : List ℚ) (items : List TextItemBox) :
    ∀ (segs : List Segment) (pages : List OutPage),
      (segs.foldl (drawSeg hs items) pages).map OutPage.base = pages.map OutPage.base := by
  intro segs
  induction segs with
  | nil => intro pages; rfl
  | cons s rest ih =>
    intro pages
    rw [List.foldl_cons, ih, map_base_drawSeg]

/-! ### Offset-invariant lemmas for the layout collection -/

theorem OffsetsOk_mono {lo' lo hi : Nat} (h : lo' ≤ lo) :
    ∀ {l : List TextItemBox}, OffsetsOk lo l hi → OffsetsOk lo' l hi
  | [], hl => le_trans h hl
  | _ :: _, hl => ⟨le_trans h hl.1, hl.2.1, hl.2.2⟩

theorem OffsetsOk_append {m m' : Nat} (hmm : m ≤ m') :
    ∀ {l1 : List TextItemBox} {lo hi : Nat} {l2 : List TextItemBox},
      OffsetsOk lo l1 m → OffsetsOk m' l2 hi → OffsetsOk lo (l1 ++ l2) hi := by
  intro l1
  induction l1 with
  | nil =>
    intro lo hi l2 h1 h2
    exact OffsetsOk_mono (le_trans h1 hmm) h2
  | cons b bs ih =>
    intro lo hi l2 h1 h2
    exact ⟨h1.1, h1.2.1, ih h1.2.2 h2⟩

theorem OffsetsOk_chain :
    ∀ {l : List TextItemBox} {lo hi : Nat}, OffsetsOk lo l hi →
      List.Chain' (fun a b => a.stop ≤ b.start) l := by
  intro l
  induction l with
  | nil => intro lo hi _; exact List.chain'_nil
  | cons b bs ih =>
    intro lo hi h
    rw [List.chain'_cons']
    refine ⟨?_, ih h.2.2⟩
    intro y hy
    cases bs with
    | nil => simp at hy
    | cons c cs =>
      simp at hy
      subst hy
      exact h.2.2.1

theorem OffsetsOk_lt :
    ∀ {l : List TextItemBox} {lo hi : Nat}, OffsetsOk lo l hi →
      ∀ b ∈ l, b.start < b.stop := by
  intro l
  induction l with
  | nil => intro lo hi _ b hb; simp at hb
  | cons c cs ih =>
    intro lo hi h b hb
    rcases List.mem_cons.mp hb with hb | hb
    · subst hb; exact h.2.1
    · exact ih h.2.2 b hb

theorem collectItems_extents (pageIndex : Nat) (rx ry pageH : ℚ) :
    ∀ (items : List PdfTextItem) (asm : String),
      (collectItems pageIndex rx ry pageH items asm).1.map (fun b => b.stop - b.start)
        = items.map (fun it => it.str.length + 1) := by
  intro items
  induction items with
  | nil => intro asm; rfl
  | cons it rest ih =>
    intro asm
    simp only [collectItems, List.map_cons]
    rw [ih]
    simp [String.length_append, length_space]
    omega

theorem collectItems_offsetsOk (pageIndex : Nat) (rx ry pageH : ℚ) :
    ∀ (items : List PdfTextItem) (asm : String),
      OffsetsOk asm.length (collectItems pageIndex rx ry pageH items asm).1
        (collectItems pageIndex rx ry pageH items asm).2.length := by
  intro items
  induction items with
  | nil => intro asm; exact le_refl _
  | cons it rest ih =>
    intro asm
    refine ⟨le_refl _, ?_, ?_⟩
    · simp [String.length_append, length_space]
      omega
    · exact ih (asm ++ it.str ++ " ")

theorem collectPages_offsetsOk :
    ∀ (pageIndex : Nat) (pages : List Page) (asm : String),
      OffsetsOk asm.length (collectPages pageIndex pages asm).1
        (collectPages pageIndex pages asm).2.1.length := by
  intro pageIndex pages
  induction pages generalizing pageIndex with
  | nil => intro asm; exact le_refl _
  | cons p rest ih =>
    intro asm
    simp only [collectPages]
    by_cases hemp : p.items.isEmpty
    · simp only [hemp, if_pos]
      refine OffsetsOk_append ?_ (le_refl asm.length) (ih (pageIndex + 1) (asm ++ "\n\n"))
      simp [String.length_append]
    · simp only [hemp, if_neg, Bool.false_eq_true, not_false_iff]
      have h1 := collectItems_offsetsOk pageIndex (p.width / p.viewportWidth)
        (p.height / p.viewportHeight) p.height p.items asm
      have h2 := ih (pageIndex + 1)
        ((collectItems pageIndex (p.width / p.viewportWidth)
          (p.height / p.viewportHeight) p.height p.items asm).2 ++ "\n\n")
      refine OffsetsOk_append ?_ h1 h2
      simp [String.length_append]

theorem collectPages_extents :
    ∀ (pageIndex : Nat) (pages : List Page) (asm : String),
      (collectPages pageIndex pages asm).1.map (fun b => b.stop - b.start)
        = (pages.flatMap Page.items).map (fun it => it.str.length + 1) := by
  intro pageIndex pages
  induction pages generalizing pageIndex with
  | nil => intro asm; rfl
  | cons p rest ih =>
    intro asm
    simp only [collectPages, List.flatMap_cons, List.map_append]
    by_cases hemp : p.items.isEmpty
    · have : p.items = [] := List.isEmpty_iff.mp hemp
      simp [hemp, this, ih (pageIndex + 1)]
    · simp only [hemp, Bool.false_eq_true, if_neg, not_false_iff]
      rw [collectItems_extents, ih (pageIndex + 1)]

theorem rectForPair_isSome (hs : List ℚ) (seg : Segment) (it : TextItemBox) :
    (rectForPair hs seg it).isSome = true ↔
      max seg.start it.start < min seg.stop it.stop := by
  unfold rectForPair
  by_cases h : min seg.stop it.stop ≤ max seg.start it.start
  · rw [if_pos h]; simp; omega
  · rw [if_neg h]; simp; omega

end DocsComparator

namespace DocsComparator

/-! ### Sanitization lemmas -/

theorem sanitizeChar (c : Char) :
    ((utf16Encode c).map winAnsiUnitMap).map Char.ofNat = sanitizePointRule c := by
  have hval : c.val.toNat < 1114112 := by
    rcases c.valid with h | h
    · exact Nat.lt_trans h (by norm_num)
    · exact h.2
  unfold utf16Encode winAnsiUnitMap sanitizePointRule
  by_cases hbmp : c.val.toNat < 0x10000
  · rw [if_pos hbmp]
    by_cases h80 : c.val.toNat < 0x80
    · simp only [List.map_cons, List.map_nil, if_pos h80]
      have h := Char.ofNat_toNat c
      simp only [Char.toNat] at h
      rw [h]
    · by_cases harr : c.val.toNat = 0x27A2
      · simp only [List.map_cons, List.map_nil, if_neg h80, if_pos harr]
      · simp only [List.map_cons, List.map_nil, if_neg h80, if_neg harr, if_pos hbmp]
  · rw [if_neg hbmp]
    have hn80 : ¬ c.val.toNat < 0x80 := by omega
    have harr : ¬ c.val.toNat = 0x27A2 := by omega
    have hu1 : ¬ (0xD800 + (c.val.toNat - 0x10000) / 0x400) < 0x80 := by omega
    have hu2 : ¬ (0xDC00 + (c.val.toNat - 0x10000) % 0x400) < 0x80 := by omega
    have ha1 : ¬ (0xD800 + (c.val.toNat - 0x10000) / 0x400) = 0x27A2 := by omega
    have ha2 : ¬ (0xDC00 + (c.val.toNat - 0x10000) % 0x400) = 0x27A2 := by omega
    simp only [List.map_cons, List.map_nil, if_neg hu1, if_neg hu2, if_neg ha1,
      if_neg ha2, if_neg hn80, if_neg harr, if_neg hbmp]

theorem sanitizeList (l : List Char) :
    ((l.flatMap utf16Encode).map winAnsiUnitMap).map Char.ofNat
      = l.flatMap sanitizePointRule := by
  induction l with
  | nil => rfl
  | cons c rest ih =>
    simp only [List.flatMap_cons, List.map_append, ih, sanitizeChar]

/-! ### Line-row lemmas -/

theorem mem_unchangedRows :
    ∀ (ls : List String) (i1 i2 : Nat) (row : DiffLine),
      row ∈ unchangedRows i1 i2 ls → row.type = LineType.unchanged := by
  intro ls
  induction ls with
  | nil => intro i1 i2 row h; simp [unchangedRows] at h
  | cons l rest ih =>
    intro i1 i2 row h
    rcases List.mem_cons.mp h with h | h
    · subst h; rfl
    · exact ih _ _ row h

theorem mem_removedRows :
    ∀ (ls : List String) (i1 : Nat) (row : DiffLine),
      row ∈ removedRows i1 ls →
        row.type = LineType.removed ∧ row.text2 = "" ∧ row.lineNumber2 = -1 := by
  intro ls
  induction ls with
  | nil => intro i1 row h; simp [removedRows] at h
  | cons l rest ih =>
    intro i1 row h
    rcases List.mem_cons.mp h with h | h
    · subst h; exact ⟨rfl, rfl, rfl⟩
    · exact ih _ row h

theorem mem_addedRows :
    ∀ (ls : List String) (i2 : Nat) (row : DiffLine),
      row ∈ addedRows i2 ls →
        row.type = LineType.added ∧ row.text1 = "" ∧ row.lineNumber1 = -1 := by
  intro ls
  induction ls with
  | nil => intro i2 row h; simp [addedRows] at h
  | cons l rest ih =>
    intro i2 row h
    rcases List.mem_cons.mp h with h | h
    · subst h; exact ⟨rfl, rfl, rfl⟩
    · exact ih _ row h

theorem lineRowsLoop_rows :
    ∀ (parts : List Part) (i1 i2 : Nat) (row : DiffLine),
      row ∈ lineRowsLoop parts i1 i2 →
        row.type ≠ LineType.modified
        ∧ (row.type = LineType.removed → row.text2 = "" ∧ row.lineNumber2 = -1)
        ∧ (row.type = LineType.added → row.text1 = "" ∧ row.lineNumber1 = -1) := by
  intro parts
  induction parts with
  | nil => intro i1 i2 row h; simp [lineRowsLoop] at h
  | cons p rest ih =>
    intro i1 i2 row h
    rw [lineRowsLoop] at h
    split at h
    · rcases List.mem_append.mp h with h | h
      · have ht := mem_unchangedRows _ _ _ _ h
        simp [ht]
      · exact ih _ _ row h
    · split at h
      · rcases List.mem_append.mp h with h | h
        · have ht := mem_removedRows _ _ _ h
          simp [ht.1, ht.2.1, ht.2.2]
        · exact ih _ _ row h
      · split at h
        · rcases List.mem_append.mp h with h | h
          · have ht := mem_addedRows _ _ _ h
            simp [ht.1, ht.2.1, ht.2.2]
          · exact ih _ _ row h
        · exact ih _ _ row h

end DocsComparator

namespace DocsComparator

/-! ### Claim theorems -/

/-- C1: the claim asserts that the fallback extraction
(`extractTextLocalFallback`, which joins a page's item strings with single
spaces) and the layout collection (`collectSecondTextLayout`, which appends
a space after every item string) assemble character-for-character identical
strings.  They do not: on a one-page document whose single item is `"a"`
the fallback yields `"a\n\n"` while the layout yields `"a \n\n"` — every
non-empty page leaves one extra space before its page separator, so
DiffSegment offsets computed over the fallback text drift by one character
per non-empty page relative to the TextRun offsets. -/
theorem claim_C1_separator_mismatch :
    extractTextLocalFallback exDocC1 = "a\n\n"
    ∧ (collectSecondTextLayout exDocC1).text = "a \n\n"
    ∧ extractTextLocalFallback exDocC1 ≠ (collectSecondTextLayout exDocC1).text := by
  refine ⟨by decide, by decide, by decide⟩

/-- C2: the segment construction walks the word-diff parts once with a
document-2 offset counter `pos2`: each added part emits exactly one segment
`{start := pos2, stop := pos2 + value.length}` and advances `pos2`; removed
parts emit nothing and keep `pos2`; unchanged parts advance `pos2`; an
emitted segment is `modified` exactly when the immediately preceding or
following part is removed.  `segmentsSpec` is that walk transcribed from
the claim; the source's indexed loop equals it. -/
theorem claim_C2_segment_walk (t1 t2 : String) :
    computeAddedAndModifiedSegments t1 t2 = segmentsSpec (diffWords t1 t2) := by
  unfold computeAddedAndModifiedSegments segmentsOfParts segmentsSpec
  simpa using segLoop_eq (diffWords t1 t2) 0 0

/-- C3 (counterexample): the claim asserts the drawn rectangle's `y`
equals the run's stored bottom-origin `y` (the Extractor's single flip).
On `exDocC3` the Extractor produces the run `boxC3` with `y = 60`
(`max 0 (100 - (30 + 10))`), but the renderer flips again and draws at
`y = max 0 (100 - (60 + 10)) = 30 ≠ 60`. -/
theorem claim_C3_counterexample :
    (collectSecondTextLayout exDocC3).items = [boxC3]
    ∧ rectForPair (collectSecondTextLayout exDocC3).pageHeights segC3 boxC3 = some rectC3
    ∧ rectC3.y ≠ boxC3.y := by
  have hph : (collectSecondTextLayout exDocC3).pageHeights = [(100 : ℚ)] := by
    simp only [collectSecondTextLayout, exDocC3, collectPages, collectItems,
      List.isEmpty_cons]
  refine ⟨?_, ?_, ?_⟩
  · show (collectPages 0 exDocC3 "").1 = [boxC3]
    simp only [exDocC3, collectPages, collectItems, List.isEmpty_cons]
    norm_num [boxC3, qmax]
    decide
  · rw [hph]
    simp only [rectForPair, segC3, boxC3, rectC3]
    norm_num [qmax]
    decide
  · norm_num [rectC3, boxC3]

/-- C3 (amended): the renderer applies the bottom-origin flip a second
time to the stored run `y`: the drawn rectangle's `y` is
`max 0 (pageHeight - (run.y + run.height))`, not `run.y`; when the run's
stored `y` is the once-flipped value of a top coordinate `yTop` that lies
inside the page, the two flips cancel and the drawn `y` equals `yTop`. -/
theorem claim_C3_double_flip (hs : List ℚ) (seg : Segment) (it : TextItemBox) (r : Rect)
    (hr : rectForPair hs seg it = some r) :
    r.y = qmax 0 (hs.getD it.pageIndex 0 - (it.y + it.height))
    ∧ ∀ H yTop : ℚ, hs.getD it.pageIndex 0 = H →
        it.y = qmax 0 (H - (yTop + it.height)) →
        0 ≤ yTop → yTop + it.height ≤ H → r.y = yTop := by
  unfold rectForPair at hr
  by_cases h : min seg.stop it.stop ≤ max seg.start it.start
  · rw [if_pos h] at hr; cases hr
  · rw [if_neg h] at hr
    injection hr with hr2
    subst hr2
    refine ⟨rfl, ?_⟩
    intro H yTop hH hflip h0 hle
    simp only [hH]
    have h1 : 0 ≤ H - (yTop + it.height) := by linarith
    rw [qmax_eq_right h1] at hflip
    rw [hflip]
    have h2 : H - (H - (yTop + it.height) + it.height) = yTop := by ring
    rw [h2, qmax_eq_right h0]

/-- C3 (witness): for the run `boxC3w` (stored `y = 60`, the flip of
`yTop = 30` with height 10 on a height-100 page) the drawn rectangle's `y`
is 30. -/
theorem claim_C3_double_flip_witness :
    rectForPair [100] segC3w boxC3w = some rectC3w ∧ rectC3w.y = 30 := by
  have hsome : rectForPair [100] segC3w boxC3w = some rectC3w := by
    simp only [rectForPair, segC3w, boxC3w, rectC3w]
    norm_num [qmax]
    decide
  refine ⟨hsome, ?_⟩
  have h := claim_C3_double_flip [100] segC3w boxC3w rectC3w hsome
  exact h.2 100 30 (by simp [boxC3w]) (by norm_num [boxC3w, qmax])
    (by norm_num) (by norm_num [boxC3w])

/-- C4: a (segment, run) pair with positive overlap yields exactly the
rectangle of the claim's formulas — `fracStart` and `fracWidth` over the
denominator floored at 1 — and a pair without positive overlap yields no
rectangle. -/
theorem claim_C4_overlap_fractions (hs : List ℚ) (seg : Segment) (it : TextItemBox) :
    (min seg.stop it.stop ≤ max seg.start it.start → rectForPair hs seg it = none)
    ∧ (max seg.start it.start < min seg.stop it.stop →
        ∃ r, rectForPair hs seg it = some r
          ∧ r.x = it.x + it.width *
              ((((max seg.start it.start : Nat) : ℚ) - (it.start : ℚ)) /
                qmax 1 ((it.stop : ℚ) - (it.start : ℚ)))
          ∧ r.width = it.width *
              ((((min seg.stop it.stop : Nat) : ℚ) - ((max seg.start it.start : Nat) : ℚ)) /
                qmax 1 ((it.stop : ℚ) - (it.start : ℚ)))) := by
  constructor
  · intro h
    unfold rectForPair
    rw [if_pos h]
  · intro h
    unfold rectForPair
    rw [if_neg (not_le.mpr h)]
    exact ⟨_, rfl, rfl, rfl⟩

/-- C4 (witness): the run `[100, 106)` with a segment `[102, 106)` (the
spec's Scenario C shape) produces a rectangle, and a segment ending at
offset 100 produces none. -/
theorem claim_C4_overlap_fractions_witness :
    (∃ r, rectForPair [100] segC4 boxC4 = some r
        ∧ r.x = boxC4.x + boxC4.width *
            ((((max segC4.start boxC4.start : Nat) : ℚ) - (boxC4.start : ℚ)) /
              qmax 1 ((boxC4.stop : ℚ) - (boxC4.start : ℚ)))
        ∧ r.width = boxC4.width *
            ((((min segC4.stop boxC4.stop : Nat) : ℚ)
                - ((max segC4.start boxC4.start : Nat) : ℚ)) /
              qmax 1 ((boxC4.stop : ℚ) - (boxC4.start : ℚ))))
    ∧ rectForPair [100] segC4n boxC4 = none :=
  ⟨(claim_C4_overlap_fractions [100] segC4 boxC4).2 (by decide),
   (claim_C4_overlap_fractions [100] segC4n boxC4).1 (by decide)⟩

/-- C5: comparing a text against itself yields no DiffSegments, and the
annotated output for a document compared against itself carries no
highlight rectangle on any page. -/
theorem claim_C5_identity (t : String) (doc : Document) :
    computeAddedAndModifiedSegments t t = []
    ∧ ((createAnnotatedSecondPdf t t doc).map OutPage.rects).flatten = [] := by
  have hseg : computeAddedAndModifiedSegments t t = [] := by
    unfold computeAddedAndModifiedSegments segmentsOfParts
    rw [segLoop_eq]
    simpa using segmentsSpecGo_nil_of_no_added _ none 0 (diffWords_self_not_added t)
  refine ⟨hseg, ?_⟩
  unfold createAnnotatedSecondPdf
  rw [hseg]
  simp [List.flatten_eq_nil_iff]

end DocsComparator

namespace DocsComparator

/-- C6 (counterexample): the claim asserts that a removed line immediately
followed by an added line is surfaced as a single `modified` row with both
texts populated.  `createLineDiff "a\n" "b\n"` aligns the removed line
`"a"` immediately before the added line `"b"`, yet produces two separate
rows (`removed` then `added`) and no `modified` row. -/
theorem claim_C6_counterexample :
    createLineDiff "a\n" "b\n" =
      [{ lineNumber1 := 1, lineNumber2 := -1, text1 := "a", text2 := "",
         type := LineType.removed },
       { lineNumber1 := -1, lineNumber2 := 1, text1 := "", text2 := "b",
         type := LineType.added }] := by
  decide

/-- C6 (amended): `createLineDiff` never produces a `modified` row — every
removed line yields its own row with `text2 = ""` and `lineNumber2 = -1`,
and every added line yields its own row with `text1 = ""` and
`lineNumber1 = -1`, whether or not it is adjacent to a row of the other
kind. -/
theorem claim_C6_row_shape (t1 t2 : String) :
    ∀ row ∈ createLineDiff t1 t2,
      row.type ≠ LineType.modified
      ∧ (row.type = LineType.removed → row.text2 = "" ∧ row.lineNumber2 = -1)
      ∧ (row.type = LineType.added → row.text1 = "" ∧ row.lineNumber1 = -1) :=
  fun row h => lineRowsLoop_rows (diffLines t1 t2) 0 0 row h

/-- C6 (witness): the removed row of `createLineDiff "a\n" "b\n"` has
`text2 = ""` and `lineNumber2 = -1`. -/
theorem claim_C6_row_shape_witness :
    rowC6 ∈ createLineDiff "a\n" "b\n" ∧ rowC6.text2 = "" ∧ rowC6.lineNumber2 = -1 :=
  ⟨by decide, (claim_C6_row_shape "a\n" "b\n" rowC6 (by decide)).2.1 (by decide)⟩

/-- C7: the layout collection emits runs whose offset extents are ordered
(`run[i].stop ≤ run[i+1].start` for adjacent runs) and positive
(`run.start < run.stop`) for every document. -/
theorem claim_C7_monotonic_offsets (doc : Document) :
    List.Chain' (fun a b => a.stop ≤ b.start) (collectSecondTextLayout doc).items
    ∧ ((collectSecondTextLayout doc).items.all fun b => decide (b.start < b.stop)) = true := by
  have h := collectPages_offsetsOk 0 doc ""
  have hitems : (collectSecondTextLayout doc).items = (collectPages 0 doc "").1 := rfl
  constructor
  · rw [hitems]; exact OffsetsOk_chain h
  · rw [List.all_eq_true]
    intro b hb
    rw [hitems] at hb
    simpa using OffsetsOk_lt h b hb

/-- C8: the annotated output keeps every input page verbatim as the base
of the corresponding output page (hence the same page count and the same
width/height per page); drawing only appends overlay rectangles. -/
theorem claim_C8_page_fidelity (t1 t2 : String) (doc : Document) :
    (createAnnotatedSecondPdf t1 t2 doc).map OutPage.base = doc
    ∧ (createAnnotatedSecondPdf t1 t2 doc).length = doc.length
    ∧ (createAnnotatedSecondPdf t1 t2 doc).map (fun op => (op.base.width, op.base.height))
        = doc.map (fun p => (p.width, p.height)) := by
  have h1 : (createAnnotatedSecondPdf t1 t2 doc).map OutPage.base = doc := by
    unfold createAnnotatedSecondPdf
    rw [map_base_foldSegs, List.map_map]
    have hid : (OutPage.base ∘ fun p => ({ base := p, rects := [] } : OutPage)) = id := rfl
    rw [hid, List.map_id]
  refine ⟨h1, by simpa using congrArg List.length h1, ?_⟩
  have h2 := congrArg (List.map fun p : Page => (p.width, p.height)) h1
  simpa [List.map_map] using h2

/-- C9 (counterexample): the claim asserts every unsupported code point is
replaced by exactly one placeholder character, but a code point above
`U+FFFF` occupies two UTF-16 code units and the per-unit regex replaces
each: the single-code-point string `"😀"` sanitizes to the two-character
string `"??"`. -/
theorem claim_C9_counterexample :
    sanitizeTextForWinAnsi "😀" = "??"
    ∧ "😀".length = 1 ∧ (sanitizeTextForWinAnsi "😀").length = 2 := by
  refine ⟨by decide, by decide, by decide⟩

/-- C9 (amended): sanitization is total and per-code-point it acts as
`sanitizePointRule`: code points below `U+0080` pass through unchanged
(the code approximates the font encoding's capability by ASCII), `'➢'`
becomes `'-'`, every other code point up to `U+FFFF` becomes one `'?'`,
and a code point above `U+FFFF` becomes two `'?'` (one per UTF-16 code
unit). -/
theorem claim_C9_sanitize_total (s : String) :
    sanitizeTextForWinAnsi s = String.mk (s.toList.flatMap sanitizePointRule) := by
  unfold sanitizeTextForWinAnsi
  rw [sanitizeList]

/-- C10: every text item yields a run whose offset extent includes the
appended separator (`run.stop - run.start = item.str.length + 1`, item by
item across the whole document), and a one-character segment covering only
the separator position `run.stop - 1` still overlaps the run, so a
rectangle is emitted for the pair. -/
theorem claim_C10_separator_extent (doc : Document) :
    ((collectSecondTextLayout doc).items.map fun b => b.stop - b.start)
        = (doc.flatMap Page.items).map (fun it => it.str.length + 1)
    ∧ ((collectSecondTextLayout doc).items.all fun b =>
        (rectForPair (collectSecondTextLayout doc).pageHeights
          { start := b.stop - 1, stop := b.stop, kind := SegKind.added } b).isSome) = true := by
  constructor
  · exact collectPages_extents 0 doc ""
  · rw [List.all_eq_true]
    intro b hb
    have hlt := OffsetsOk_lt (collectPages_offsetsOk 0 doc "") b hb
    rw [rectForPair_isSome]
    simp only
    omega

end DocsComparator
